import Mathlib

/-!
Verification of the imacon auto-tiling layout engine (engine.go).

Numeric model: Go `float64` values are modelled as `ℚ`.  All arithmetic the
engine performs on sizes (sums, products, divisions, comparisons) is exact on
the inputs considered, so `ℚ` is a faithful model away from overflow/NaN
degeneracies; theorems about the shape search carry positivity hypotheses that
keep the model inside the region where the Go float semantics agree
(no division by zero, no NaN scores, every height below `math.MaxFloat64`).

The drawing context (`gg.Context`) only ever reaches the layout code as an
opaque text/image measurement collaborator, through `IntrinsicSize` calls.
The engine queries every tile with a width-only constraint
`IntrinsicSize(ctx, colWidth, 0)`, so a tileable object is modelled by the
function `ℚ → Size` it realises for those calls.
-/

namespace Imacon

/-- `Size` struct of engine.go: a pre-calculated width/height pair. -/
structure Size where
  Width : ℚ
  Height : ℚ
  deriving DecidableEq

/-- A `Tileable` object, modelled by its response to width-only intrinsic-size
queries: `intrinsic cw` is the `(width, height)` that
`obj.IntrinsicSize(ctx, cw, 0)` reports.  The layout engine issues exactly
these calls (in `Pane.Shape`, `Column.Height` and `Pane.DrawShape`). -/
structure Tile where
  intrinsic : ℚ → Size

/-- `TileProxy` of engine.go: freezes a pre-calculated size; its
`IntrinsicSize` ignores the constraint arguments and returns the frozen
size. -/
def TileProxy (s : Size) : Tile :=
  ⟨fun _ => s⟩

/-- Constants of engine.go. -/
def DefaultOuterPad : ℚ := 24

/-- The minimum padding between tiles (engine.go `DefaultMinPad`). -/
def DefaultMinPad : ℚ := 12

/-- The default padding between image and its label. -/
def DefaultLabelPad : ℚ := 3

/-- The default column width for tiling. -/
def DefaultColWidth : ℚ := 720

/-- The default padding between columns. -/
def DefaultColPad : ℚ := 24

/-- `Column` of engine.go: an ordered stack of tileable objects. -/
structure Column where
  Objects : List Tile

/-- `Column.Height` of engine.go: sums each object's intrinsic height at the
column width, then adds `rowPad * float64(len(Objects) - 1)`.  The `- 1` is Go
`int` arithmetic, so an empty column contributes `rowPad * (-1)`. -/
def Column.Height (c : Column) (colWidth rowPad : ℚ) : ℚ :=
  (c.Objects.map (fun o => (o.intrinsic colWidth).Height)).sum
    + rowPad * (((c.Objects.length : ℤ) - 1 : ℤ) : ℚ)

/-- `Shape` of engine.go: an ordered list of columns. -/
structure Shape where
  Columns : List Column

/-- `NewShape` of engine.go: `colCount` empty columns. -/
def NewShape (colCount : Nat) : Shape :=
  ⟨List.replicate colCount ⟨[]⟩⟩

/-- `NewShapeWithObjects` of engine.go. -/
def NewShapeWithObjects (columns : List Column) : Shape :=
  ⟨columns⟩

/-- The list of column heights of a shape, in column order. -/
def colHeights (s : Shape) (colWidth rowPad : ℚ) : List ℚ :=
  s.Columns.map (fun c => c.Height colWidth rowPad)

/-- The scan inside `deriveShape`: walk the remaining heights keeping the
index `best` of the smallest height `m` seen so far, updating only on a
strict `<` (so the first column attaining the minimum wins). -/
def scanMin : List ℚ → Nat → Nat → ℚ → Nat
  | [], _, best, _ => best
  | h :: rest, i, best, m =>
    if h < m then scanMin rest (i + 1) i h else scanMin rest (i + 1) best m

/-- The column index `deriveShape` selects for one tile.  Go seeds the scan
with `minHeight = math.MaxFloat64`, which every actual column height is below,
so the first column always becomes the initial minimum; the scan is seeded
with column 0's height accordingly.  (With zero columns Go would index out of
range; the engine only ever builds shapes with `colCount ≥ 1`.) -/
def minHeightCol : List ℚ → Nat
  | [] => 0
  | h :: rest => scanMin rest 1 0 h

/-- Append a tile at the end of column `i` (Go `append` on
`s.Columns[i].Objects`). -/
def pushTile : List Column → Nat → Tile → List Column
  | [], _, _ => []
  | c :: cs, 0, t => ⟨c.Objects ++ [t]⟩ :: cs
  | c :: cs, i + 1, t => c :: pushTile cs i t

/-- One iteration of the `deriveShape` loop: place one tile into the column
with the currently smallest accumulated height. -/
def placeTile (s : Shape) (t : Tile) (colWidth rowPad : ℚ) : Shape :=
  ⟨pushTile s.Columns (minHeightCol (colHeights s colWidth rowPad)) t⟩

/-- `deriveShape` of engine.go: greedily push tiles, in their original list
order, into the shape's columns. -/
def deriveShape (s : Shape) (tiles : List Tile) (colWidth rowPad : ℚ) : Shape :=
  tiles.foldl (fun acc t => placeTile acc t colWidth rowPad) s

/-- `canvasSize` of engine.go: total width
`colCount*colWidth + (colCount-1)*colPad`, height the running maximum of the
column heights, seeded with `0.0` and updated on strict `>`. -/
def canvasSize (shape : Shape) (colWidth colPad rowPad : ℚ) : ℚ × ℚ :=
  let colCount := shape.Columns.length
  let totalW := (colCount : ℚ) * colWidth + (((colCount : ℤ) - 1 : ℤ) : ℚ) * colPad
  let maxH := (colHeights shape colWidth rowPad).foldl (fun m h => if h > m then h else m) 0
  (totalW, maxH)

/-- `Pane` of engine.go. -/
structure Pane where
  Objects : List Tile
  PlannedShape : Option Shape
  ColWidth : ℚ
  ColPad : ℚ
  RowPad : ℚ

/-- `NewPane` of engine.go: zero-valued layout parameters fall back to the
defaults. -/
def NewPane (objects : List Tile) (colWidth colPad rowPad : ℚ) : Pane :=
  { Objects := objects
    PlannedShape := none
    ColWidth := if colWidth = 0 then DefaultColWidth else colWidth
    ColPad := if colPad = 0 then DefaultColPad else colPad
    RowPad := if rowPad = 0 then DefaultMinPad else rowPad }

/-- `NewPaneWithShape` of engine.go: same defaulting, stores a pre-built
shape and leaves `Objects` nil. -/
def NewPaneWithShape (shape : Shape) (colWidth colPad rowPad : ℚ) : Pane :=
  { Objects := []
    PlannedShape := some shape
    ColWidth := if colWidth = 0 then DefaultColWidth else colWidth
    ColPad := if colPad = 0 then DefaultColPad else colPad
    RowPad := if rowPad = 0 then DefaultMinPad else rowPad }

/-- The proxy list `Pane.Shape` builds: each object is measured once at the
pane's column width and wrapped in a `TileProxy` with that frozen size. -/
def Pane.mkProxies (p : Pane) : List Tile :=
  p.Objects.map (fun o => TileProxy (o.intrinsic p.ColWidth))

/-- The candidate shape the search builds for a given column count. -/
def candidateShape (proxies : List Tile) (colWidth rowPad : ℚ) (colCount : Nat) : Shape :=
  deriveShape (NewShape colCount) proxies colWidth rowPad

/-- The canvas size of the candidate with `colCount` columns. -/
def candSize (proxies : List Tile) (colWidth colPad rowPad : ℚ) (colCount : Nat) : ℚ × ℚ :=
  canvasSize (candidateShape proxies colWidth rowPad colCount) colWidth colPad rowPad

/-- The score `area * ar` of the candidate with `colCount` columns:
`area = w*h`, `ar = max(w/h, h/w)`. -/
def candScore (proxies : List Tile) (colWidth colPad rowPad : ℚ) (colCount : Nat) : ℚ :=
  let wh := candSize proxies colWidth colPad rowPad colCount
  wh.1 * wh.2 * max (wh.1 / wh.2) (wh.2 / wh.1)

/-- One iteration of the search loop in `Pane.Shape`: evaluate the candidate
with `colCount` columns (`candSize` is its `canvasSize`, `candScore` its
`area * ar`) and keep it if its score strictly beats the best seen so far.
The `math.MaxFloat64` initial best is modelled as `none`, beaten by every
(finite) score. -/
def searchStep (proxies : List Tile) (colWidth colPad rowPad : ℚ)
    (best : Option (Shape × Size × ℚ)) (colCount : Nat) : Option (Shape × Size × ℚ) :=
  let s := candidateShape proxies colWidth rowPad colCount
  let wh := candSize proxies colWidth colPad rowPad colCount
  let score := candScore proxies colWidth colPad rowPad colCount
  match best with
  | none => some (s, ⟨wh.1, wh.2⟩, score)
  | some (bs, bsz, bscore) =>
    if score < bscore then some (s, ⟨wh.1, wh.2⟩, score) else some (bs, bsz, bscore)

/-- The search loop of `Pane.Shape` over `colCount = 1 .. maxCol`. -/
def shapeSearch (proxies : List Tile) (colWidth colPad rowPad : ℚ) :
    Option (Shape × Size × ℚ) :=
  (List.range' 1 proxies.length).foldl (searchStep proxies colWidth colPad rowPad) none

/-- `Pane.Shape` of engine.go.  `none` models the case in which the loop body
never ran and `bestShape` is still `nil`: the Go code then executes
`return *bestShape, bestSize`, dereferencing a nil pointer (a runtime panic —
there is no error return in the signature). -/
def Pane.Shape (p : Pane) : Option (Imacon.Shape × Size) :=
  (shapeSearch p.mkProxies p.ColWidth p.ColPad p.RowPad).map (fun r => (r.1, r.2.1))

/-- The top-to-bottom y-offsets at which `Pane.DrawShape` draws the tiles of
one column: after each tile the context is translated down by
`tileHeight + rPad`. -/
def columnYs (colWidth rPad : ℚ) : List Tile → ℚ → List ℚ
  | [], _ => []
  | t :: ts, y => y :: columnYs colWidth rPad ts (y + (t.intrinsic colWidth).Height + rPad)

/-- `Pane.DrawShape` of engine.go, modelled as the geometry it produces: for
each column (in order) the horizontal translation
`ColWidth*colIndex + ColPad*colIndex`, and the list of y-offsets of its tiles.
Note the source hard-codes `rPad := DefaultMinPad` for the vertical advance —
it does not read `p.RowPad`. -/
def Pane.DrawShape (p : Pane) (shape : Imacon.Shape) : List (ℚ × List ℚ) :=
  shape.Columns.enum.map
    (fun ic => (p.ColWidth * (ic.1 : ℚ) + p.ColPad * (ic.1 : ℚ),
      columnYs p.ColWidth DefaultMinPad ic.2.Objects 0))

/-- `Pane.Draw` of engine.go: reuse the memoized shape if present, otherwise
run the search, memoize, and draw.  Returns the drawn geometry together with
the pane state after the call; `none` models the nil-dereference panic of
`Pane.Shape` on an empty object list. -/
def Pane.Draw (p : Pane) (cw ch : ℚ) : Option (List (ℚ × List ℚ) × Pane) :=
  match p.PlannedShape with
  | some s => some (p.DrawShape s, p)
  | none =>
    match p.Shape with
    | none => none
    | some (s, _) => some (p.DrawShape s, { p with PlannedShape := some s })

/-- `Pane.IntrinsicSize` of engine.go: with a memoized shape, recompute its
canvas size; otherwise run the search, memoize the shape, and return the size
recorded by the search.  The constraint arguments are accepted and ignored.
Returns the reported size and the pane state after the call. -/
def Pane.IntrinsicSize (p : Pane) (expectedWidth expectedHeight : ℚ) :
    Option ((ℚ × ℚ) × Pane) :=
  match p.PlannedShape with
  | some s => some (canvasSize s p.ColWidth p.ColPad p.RowPad, p)
  | none =>
    match p.Shape with
    | none => none
    | some (s, sz) => some ((sz.Width, sz.Height), { p with PlannedShape := some s })

/-- `ImageBlock` of engine.go, reduced to what `IntrinsicSize` reads: the
native pixel bounds `Dx`/`Dy` of the decoded image, and the caption
`TextBlock`'s intrinsic height as a function of the width constraint it is
measured at (the text-measurement collaborator). -/
structure ImageBlock where
  ImageW : ℚ
  ImageH : ℚ
  Label : ℚ → ℚ

/-- `ImageBlock.IntrinsicSize` of engine.go. -/
def ImageBlock.IntrinsicSize (i : ImageBlock) (expectedWidth expectedHeight : ℚ) : ℚ × ℚ :=
  let w := i.ImageW
  let h := i.ImageH
  let ew := if expectedWidth = 0 ∧ expectedHeight = 0 then w else expectedWidth
  if ew ≠ 0 ∧ expectedHeight = 0 then
    -- only scale down image but not scale up
    let ew2 := if ew > w then w else ew
    let scale := if ew > w then 1 else ew / w
    let textHeight := i.Label ew2
    (ew2, h * scale + textHeight + DefaultLabelPad)
  else if ew = 0 ∧ expectedHeight ≠ 0 then
    let scale := expectedHeight / h
    let newWidth := w * scale
    let textHeight := i.Label newWidth
    (newWidth, expectedHeight + textHeight + DefaultLabelPad)
  else
    -- both width and height are defined: scale by the smaller factor
    let scale := min (expectedWidth / w) (expectedHeight / h)
    let newWidth := w * scale
    let textHeight := i.Label newWidth
    (newWidth, h * scale + textHeight + DefaultLabelPad)

/-- An `ImageBlock` used as a tileable object (the engine queries it with
width-only constraints). -/
def ImageBlock.toTile (i : ImageBlock) : Tile :=
  ⟨fun cw => ⟨(i.IntrinsicSize cw 0).1, (i.IntrinsicSize cw 0).2⟩⟩

/-- A sample tileable object with a frozen size, for concrete evaluations. -/
def sampleTile (wd ht : ℚ) : Tile :=
  TileProxy ⟨wd, ht⟩

/-- A 100×100 image whose caption measures to height 0 at every width. -/
def boxImage : ImageBlock :=
  ⟨100, 100, fun _ => 0⟩

/-- A one-column shape holding two frozen 10×10 tiles. -/
def c5Shape : Imacon.Shape :=
  ⟨[⟨[sampleTile 10 10, sampleTile 10 10]⟩]⟩

/-- A pane with a memoized shape and a non-default row pad of 24. -/
def c5Pane : Pane :=
  { Objects := []
    PlannedShape := some c5Shape
    ColWidth := 720
    ColPad := 24
    RowPad := 24 }

/-- A two-column shape whose first column is taller than its second. -/
def c2Shape : Imacon.Shape :=
  ⟨[⟨[sampleTile 10 5]⟩, ⟨[sampleTile 10 1]⟩]⟩

/-- The best-candidate triple (`bestShape`, `bestSize`, `areaDotAr`) the
search records for column count `c`. -/
def candTriple (proxies : List Tile) (colWidth colPad rowPad : ℚ) (c : Nat) :
    Imacon.Shape × Size × ℚ :=
  (candidateShape proxies colWidth rowPad c,
   ⟨(candSize proxies colWidth colPad rowPad c).1,
    (candSize proxies colWidth colPad rowPad c).2⟩,
   candScore proxies colWidth colPad rowPad c)

/-- A pane with two frozen 10×10 tiles and explicit layout parameters. -/
def c1Pane : Pane :=
  NewPane [sampleTile 10 10, sampleTile 10 10] 10 2 2

/-- A pane with a single frozen 10×10 tile and no memoized shape. -/
def c7Pane : Pane :=
  NewPane [sampleTile 10 10] 10 2 2

/-! ## The scan inside deriveShape picks the first column of minimal height -/

/-- If `best` points at the first minimum (of value `m`) of the scanned
prefix `front`, then finishing the scan over `rest` returns the first index
of a minimal entry of `front ++ rest`. -/
theorem scanMin_go (rest : List ℚ) : ∀ (front : List ℚ) (best : Nat) (m : ℚ),
    best < front.length →
    front.getD best 0 = m →
    (∀ j < front.length, m ≤ front.getD j 0) →
    (∀ j < best, m < front.getD j 0) →
    scanMin rest front.length best m < (front ++ rest).length ∧
    (∀ j < (front ++ rest).length,
      (front ++ rest).getD (scanMin rest front.length best m) 0 ≤
        (front ++ rest).getD j 0) ∧
    (∀ j < scanMin rest front.length best m,
      (front ++ rest).getD (scanMin rest front.length best m) 0 <
        (front ++ rest).getD j 0) := by
  induction rest with
  | nil =>
    intro front best m hb hm hge hlt
    simp only [scanMin, List.append_nil]
    refine ⟨hb, ?_, ?_⟩
    · intro j hj
      rw [hm]
      exact hge j hj
    · intro j hj
      rw [hm]
      exact hlt j hj
  | cons h rest ih =>
    intro front best m hb hm hge hlt
    have hsplit : front ++ h :: rest = (front ++ [h]) ++ rest := by simp
    have hlen : (front ++ [h]).length = front.length + 1 := by simp
    by_cases hcmp : h < m
    · have hrec := ih (front ++ [h]) front.length h
        (by simp)
        (by rw [List.getD_append_right front [h] 0 front.length (le_refl _)]; simp)
        (by
          intro j hj
          rw [hlen] at hj
          rcases Nat.lt_succ_iff_lt_or_eq.mp hj with hj' | hj'
          · rw [List.getD_append front [h] 0 j hj']
            exact le_of_lt (lt_of_lt_of_le hcmp (hge j hj'))
          · rw [hj', List.getD_append_right front [h] 0 front.length (le_refl _)]
            simp)
        (by
          intro j hj
          rw [List.getD_append front [h] 0 j hj]
          exact lt_of_lt_of_le hcmp (hge j hj))
      rw [hlen] at hrec
      rw [hsplit]
      simpa only [scanMin, if_pos hcmp] using hrec
    · have hrec := ih (front ++ [h]) best m
        (by rw [hlen]; exact Nat.lt_succ_of_lt hb)
        (by rw [List.getD_append front [h] 0 best hb]; exact hm)
        (by
          intro j hj
          rw [hlen] at hj
          rcases Nat.lt_succ_iff_lt_or_eq.mp hj with hj' | hj'
          · rw [List.getD_append front [h] 0 j hj']
            exact hge j hj'
          · rw [hj', List.getD_append_right front [h] 0 front.length (le_refl _)]
            simpa using not_lt.mp hcmp)
        (by
          intro j hj
          rw [List.getD_append front [h] 0 j (lt_trans hj hb)]
          exact hlt j hj)
      rw [hlen] at hrec
      rw [hsplit]
      simpa only [scanMin, if_neg hcmp] using hrec

/-- `minHeightCol` returns the first index attaining the minimum of a
non-empty height list: the entry there is `≤` every entry, and every earlier
entry is strictly larger. -/
theorem minHeightCol_first_argmin (hs : List ℚ) (hne : hs ≠ []) :
    minHeightCol hs < hs.length ∧
    (∀ j < hs.length, hs.getD (minHeightCol hs) 0 ≤ hs.getD j 0) ∧
    (∀ j < minHeightCol hs, hs.getD (minHeightCol hs) 0 < hs.getD j 0) := by
  match hs, hne with
  | h :: rest, _ =>
    have hrec := scanMin_go rest [h] 0 h
      (by simp)
      (by simp)
      (by intro j hj; rw [Nat.lt_one_iff.mp hj]; simp)
      (by intro j hj; exact absurd hj (Nat.not_lt_zero j))
    simpa [minHeightCol] using hrec

/-! ## pushTile appends to the selected column and leaves the rest alone -/

theorem pushTile_length (cs : List Column) (i : Nat) (t : Tile) :
    (pushTile cs i t).length = cs.length := by
  induction cs generalizing i with
  | nil => rfl
  | cons c cs ih =>
    cases i with
    | zero => rfl
    | succ i => simp [pushTile, ih]

theorem pushTile_getD_self (cs : List Column) (i : Nat) (t : Tile)
    (hi : i < cs.length) :
    (pushTile cs i t).getD i ⟨[]⟩ = ⟨(cs.getD i ⟨[]⟩).Objects ++ [t]⟩ := by
  induction cs generalizing i with
  | nil => simp at hi
  | cons c cs ih =>
    cases i with
    | zero => rfl
    | succ i => simpa [pushTile] using ih i (by simpa using hi)

theorem pushTile_getD_other (cs : List Column) (i j : Nat) (t : Tile)
    (hj : j ≠ i) :
    (pushTile cs i t).getD j ⟨[]⟩ = cs.getD j ⟨[]⟩ := by
  induction cs generalizing i j with
  | nil => rfl
  | cons c cs ih =>
    cases i with
    | zero =>
      cases j with
      | zero => exact absurd rfl hj
      | succ j => rfl
    | succ i =>
      cases j with
      | zero => rfl
      | succ j => simpa [pushTile] using ih i j (by omega)

/-! ## The search loop keeps the first candidate of minimal score -/

theorem canvasSize_candidate (proxies : List Tile) (colWidth colPad rowPad : ℚ) (c : Nat) :
    canvasSize (candidateShape proxies colWidth rowPad c) colWidth colPad rowPad =
      candSize proxies colWidth colPad rowPad c := rfl

theorem searchStep_none (proxies : List Tile) (colWidth colPad rowPad : ℚ) (x : Nat) :
    searchStep proxies colWidth colPad rowPad none x =
      some (candTriple proxies colWidth colPad rowPad x) := rfl

theorem searchStep_some (proxies : List Tile) (colWidth colPad rowPad : ℚ) (c x : Nat) :
    searchStep proxies colWidth colPad rowPad
        (some (candTriple proxies colWidth colPad rowPad c)) x =
      some (candTriple proxies colWidth colPad rowPad
        (if candScore proxies colWidth colPad rowPad x <
            candScore proxies colWidth colPad rowPad c then x else c)) := by
  by_cases hlt : candScore proxies colWidth colPad rowPad x <
      candScore proxies colWidth colPad rowPad c
  · rw [if_pos hlt]
    simp only [searchStep, candTriple]
    rw [if_pos hlt]
  · rw [if_neg hlt]
    simp only [searchStep, candTriple]
    rw [if_neg hlt]

/-- Main loop invariant of the search in `Pane.Shape`: starting from a best
candidate `c` that is the first minimum over `[1, a)`, folding the remaining
column counts `[a, a + n)` returns the first minimum over `[1, a + n)`. -/
theorem searchLoop_spec (proxies : List Tile) (colWidth colPad rowPad : ℚ) :
    ∀ n a c : Nat, 1 ≤ c → c < a →
    (∀ x, 1 ≤ x → x < a →
      candScore proxies colWidth colPad rowPad c ≤
        candScore proxies colWidth colPad rowPad x) →
    (∀ x, 1 ≤ x → x < a →
      candScore proxies colWidth colPad rowPad x =
        candScore proxies colWidth colPad rowPad c → c ≤ x) →
    ∃ d, (List.range' a n).foldl (searchStep proxies colWidth colPad rowPad)
          (some (candTriple proxies colWidth colPad rowPad c)) =
        some (candTriple proxies colWidth colPad rowPad d) ∧
      1 ≤ d ∧ d < a + n ∧
      (∀ x, 1 ≤ x → x < a + n →
        candScore proxies colWidth colPad rowPad d ≤
          candScore proxies colWidth colPad rowPad x) ∧
      (∀ x, 1 ≤ x → x < a + n →
        candScore proxies colWidth colPad rowPad x =
          candScore proxies colWidth colPad rowPad d → d ≤ x) := by
  intro n
  induction n with
  | zero =>
    intro a c hc1 hca hmin htie
    exact ⟨c, rfl, hc1, by omega, fun x h1 h2 => hmin x h1 (by omega),
      fun x h1 h2 => htie x h1 (by omega)⟩
  | succ n ih =>
    intro a c hc1 hca hmin htie
    rw [List.range'_succ, List.foldl_cons, searchStep_some]
    by_cases hlt : candScore proxies colWidth colPad rowPad a <
        candScore proxies colWidth colPad rowPad c
    · rw [if_pos hlt]
      obtain ⟨d, hfold, hd1, hda, hdmin, hdtie⟩ := ih (a + 1) a (by omega) (by omega)
        (fun x h1 h2 => by
          rcases Nat.lt_succ_iff_lt_or_eq.mp h2 with h | h
          · exact le_of_lt (lt_of_lt_of_le hlt (hmin x h1 h))
          · rw [h])
        (fun x h1 h2 heq => by
          rcases Nat.lt_succ_iff_lt_or_eq.mp h2 with h | h
          · exact absurd heq (ne_of_gt (lt_of_lt_of_le hlt (hmin x h1 h)))
          · omega)
      exact ⟨d, hfold, hd1, by omega, fun x h1 h2 => hdmin x h1 (by omega),
        fun x h1 h2 => hdtie x h1 (by omega)⟩
    · rw [if_neg hlt]
      obtain ⟨d, hfold, hd1, hda, hdmin, hdtie⟩ := ih (a + 1) c hc1 (by omega)
        (fun x h1 h2 => by
          rcases Nat.lt_succ_iff_lt_or_eq.mp h2 with h | h
          · exact hmin x h1 h
          · rw [h]; exact not_lt.mp hlt)
        (fun x h1 h2 heq => by
          rcases Nat.lt_succ_iff_lt_or_eq.mp h2 with h | h
          · exact htie x h1 h heq
          · omega)
      exact ⟨d, hfold, hd1, by omega, fun x h1 h2 => hdmin x h1 (by omega),
        fun x h1 h2 => hdtie x h1 (by omega)⟩

/-- The search over `colCount = 1 .. N` (for a non-empty proxy list) returns
the candidate with the smallest score, ties resolved towards the lowest
column count. -/
theorem shapeSearch_spec (proxies : List Tile) (colWidth colPad rowPad : ℚ)
    (hne : proxies ≠ []) :
    ∃ d, shapeSearch proxies colWidth colPad rowPad =
        some (candTriple proxies colWidth colPad rowPad d) ∧
      1 ≤ d ∧ d ≤ proxies.length ∧
      (∀ x, 1 ≤ x → x ≤ proxies.length →
        candScore proxies colWidth colPad rowPad d ≤
          candScore proxies colWidth colPad rowPad x) ∧
      (∀ x, 1 ≤ x → x ≤ proxies.length →
        candScore proxies colWidth colPad rowPad x =
          candScore proxies colWidth colPad rowPad d → d ≤ x) := by
  obtain ⟨N, hN⟩ : ∃ N, proxies.length = N + 1 := by
    cases hp : proxies with
    | nil => exact absurd hp hne
    | cons a l => exact ⟨l.length, by simp⟩
  unfold shapeSearch
  rw [hN, List.range'_succ, List.foldl_cons, searchStep_none]
  obtain ⟨d, hfold, hd1, hdN, hdmin, hdtie⟩ :=
    searchLoop_spec proxies colWidth colPad rowPad N 2 1 (le_refl 1) (by omega)
      (fun x h1 h2 => by
        have hx : x = 1 := by omega
        rw [hx])
      (fun x h1 h2 heq => by omega)
  exact ⟨d, hfold, hd1, by omega, fun x h1 h2 => hdmin x h1 (by omega),
    fun x h1 h2 => hdtie x h1 (by omega)⟩

/-! ## Claim theorems -/

/-- C2: `deriveShape` processes tiles in their original list order, and each
tile is appended to the column whose accumulated height at that moment is
smallest, ties broken by the lowest column index: the selected index attains
a height `≤` every column's height, every column scanned before it is
strictly taller, the selected column gets the tile appended at its end, and
every other column is untouched. -/
theorem c2_derive_shape_greedy (s : Imacon.Shape) (t : Tile) (tiles : List Tile)
    (colWidth rowPad : ℚ) (hne : s.Columns ≠ []) :
    minHeightCol (colHeights s colWidth rowPad) < s.Columns.length ∧
    (∀ j < s.Columns.length,
      (colHeights s colWidth rowPad).getD (minHeightCol (colHeights s colWidth rowPad)) 0 ≤
        (colHeights s colWidth rowPad).getD j 0) ∧
    (∀ j < minHeightCol (colHeights s colWidth rowPad),
      (colHeights s colWidth rowPad).getD (minHeightCol (colHeights s colWidth rowPad)) 0 <
        (colHeights s colWidth rowPad).getD j 0) ∧
    (placeTile s t colWidth rowPad).Columns.getD
        (minHeightCol (colHeights s colWidth rowPad)) ⟨[]⟩ =
      ⟨(s.Columns.getD (minHeightCol (colHeights s colWidth rowPad)) ⟨[]⟩).Objects ++ [t]⟩ ∧
    (∀ j, j ≠ minHeightCol (colHeights s colWidth rowPad) →
      (placeTile s t colWidth rowPad).Columns.getD j ⟨[]⟩ = s.Columns.getD j ⟨[]⟩) ∧
    deriveShape s (t :: tiles) colWidth rowPad =
      deriveShape (placeTile s t colWidth rowPad) tiles colWidth rowPad := by
  have hlen : (colHeights s colWidth rowPad).length = s.Columns.length :=
    List.length_map _ _
  have hne' : colHeights s colWidth rowPad ≠ [] := by
    intro h
    exact hne (List.map_eq_nil.mp h)
  obtain ⟨h1, h2, h3⟩ := minHeightCol_first_argmin _ hne'
  refine ⟨hlen ▸ h1, ?_, h3, ?_, ?_, rfl⟩
  · intro j hj
    exact h2 j (by omega)
  · exact pushTile_getD_self _ _ _ (by omega)
  · intro j hj
    exact pushTile_getD_other _ _ _ _ hj

/-- C2, witness for `c2_derive_shape_greedy` at a concrete shape: the second
(shorter) column is selected and receives the tile. -/
theorem c2_derive_shape_greedy_witness :
    c2Shape.Columns ≠ [] ∧
    minHeightCol (colHeights c2Shape 10 2) < c2Shape.Columns.length ∧
    (placeTile c2Shape (sampleTile 10 2) 10 2).Columns.getD
        (minHeightCol (colHeights c2Shape 10 2)) ⟨[]⟩ =
      ⟨(c2Shape.Columns.getD (minHeightCol (colHeights c2Shape 10 2)) ⟨[]⟩).Objects
        ++ [sampleTile 10 2]⟩ := by
  have h := c2_derive_shape_greedy c2Shape (sampleTile 10 2) [] 10 2
    (by simp [c2Shape])
  exact ⟨by simp [c2Shape], h.1, h.2.2.2.1⟩

/-- C4, counterexample: the claim says `Column.Height` returns 0 for an empty
column, but the source computes `rowPad * float64(len - 1)` with `len = 0`,
so an empty column at `rowPad = 12` has height `-12 ≠ 0`. -/
theorem c4_empty_column_height_counterexample :
    Column.Height ⟨[]⟩ DefaultColWidth DefaultMinPad = -12 ∧ (-12 : ℚ) ≠ 0 := by
  constructor
  · unfold Column.Height
    norm_num [DefaultMinPad]
  · norm_num

/-- C4 (amended): for a column holding at least one tile, `Column.Height`
returns the sum of the tiles' intrinsic heights at the column width plus
`(count - 1) * rowPad`; for an empty column it returns `-rowPad` (the same
formula applied at count 0), not 0. -/
theorem c4_column_height_formula (c : Column) (colWidth rowPad : ℚ) :
    (c.Objects ≠ [] →
      c.Height colWidth rowPad =
        (c.Objects.map (fun o => (o.intrinsic colWidth).Height)).sum
          + rowPad * ((c.Objects.length : ℚ) - 1)) ∧
    (c.Objects = [] → c.Height colWidth rowPad = -rowPad) := by
  constructor
  · intro _
    unfold Column.Height
    push_cast
    ring
  · intro h
    unfold Column.Height
    rw [h]
    norm_num

/-- C4, witness for `c4_column_height_formula` at concrete inputs. -/
theorem c4_column_height_formula_witness :
    Column.Height ⟨[sampleTile 10 7, sampleTile 10 5]⟩ 10 2 = (7 + 5) + 2 * (2 - 1) ∧
    Column.Height ⟨[]⟩ 10 2 = -2 := by
  constructor
  · have h := (c4_column_height_formula ⟨[sampleTile 10 7, sampleTile 10 5]⟩ 10 2).1
      (by simp)
    rw [h]
    norm_num [sampleTile, TileProxy]
  · exact (c4_column_height_formula ⟨[]⟩ 10 2).2 rfl

/-- C6: `Pane.IntrinsicSize` ignores the constraint arguments entirely — for
any two pairs of constraints the full result (reported size and resulting
pane state) is identical. -/
theorem c6_pane_intrinsic_size_constraint_independent
    (p : Pane) (w1 h1 w2 h2 : ℚ) :
    p.IntrinsicSize w1 h1 = p.IntrinsicSize w2 h2 := rfl

/-- C8: when an empty tile list reaches the shape search, the loop body never
runs and `bestShape` remains `nil` (modelled: the search yields `none`).  The
Go code then executes `return *bestShape, bestSize` — a nil-pointer
dereference, i.e. an abrupt panic.  `Pane.Shape` has no error return value at
all, so the degenerate case is not reported as an error to the caller,
contrary to the claim. -/
theorem c8_empty_tile_list_no_error_path :
    Pane.Shape (NewPane [] 0 0 0) = none := rfl

/-- C10: both constructors replace each zero-valued layout parameter with its
default (`DefaultColWidth = 720`, `DefaultColPad = 24`,
`DefaultMinPad = 12`), and a constructed pane never carries a zero column
width, column padding, or row padding. -/
theorem c10_constructor_defaults (objects : List Tile) (shape : Imacon.Shape)
    (colWidth colPad rowPad : ℚ) :
    ((colWidth = 0 → (NewPane objects colWidth colPad rowPad).ColWidth = DefaultColWidth) ∧
     (colPad = 0 → (NewPane objects colWidth colPad rowPad).ColPad = DefaultColPad) ∧
     (rowPad = 0 → (NewPane objects colWidth colPad rowPad).RowPad = DefaultMinPad) ∧
     (NewPane objects colWidth colPad rowPad).ColWidth ≠ 0 ∧
     (NewPane objects colWidth colPad rowPad).ColPad ≠ 0 ∧
     (NewPane objects colWidth colPad rowPad).RowPad ≠ 0) ∧
    ((colWidth = 0 → (NewPaneWithShape shape colWidth colPad rowPad).ColWidth = DefaultColWidth) ∧
     (colPad = 0 → (NewPaneWithShape shape colWidth colPad rowPad).ColPad = DefaultColPad) ∧
     (rowPad = 0 → (NewPaneWithShape shape colWidth colPad rowPad).RowPad = DefaultMinPad) ∧
     (NewPaneWithShape shape colWidth colPad rowPad).ColWidth ≠ 0 ∧
     (NewPaneWithShape shape colWidth colPad rowPad).ColPad ≠ 0 ∧
     (NewPaneWithShape shape colWidth colPad rowPad).RowPad ≠ 0) := by
  unfold NewPane NewPaneWithShape
  refine ⟨⟨fun h => by simp [h], fun h => by simp [h], fun h => by simp [h], ?_, ?_, ?_⟩,
    ⟨fun h => by simp [h], fun h => by simp [h], fun h => by simp [h], ?_, ?_, ?_⟩⟩ <;>
    · simp only
      split <;> norm_num [DefaultColWidth, DefaultColPad, DefaultMinPad] at *
      assumption

/-- C10, witness for `c10_constructor_defaults` at concrete inputs. -/
theorem c10_constructor_defaults_witness :
    (NewPane [] 0 0 0).ColWidth = DefaultColWidth ∧
    (NewPane [] 0 5 0).RowPad ≠ 0 ∧
    (NewPaneWithShape (NewShape 1) 0 0 0).ColPad = DefaultColPad :=
  ⟨(c10_constructor_defaults [] (NewShape 1) 0 0 0).1.1 rfl,
   (c10_constructor_defaults [] (NewShape 1) 0 5 0).1.2.2.2.2.2,
   (c10_constructor_defaults [] (NewShape 1) 0 0 0).2.2.1 rfl⟩

/-- C3, counterexample: in the fit-within-box mode the source scales by
`min(cw/w, ch/h)` with no clamp at 1, so a 100×100 image constrained to a
200×200 box is reported at width 200 — exceeding its native width, contrary
to the claim that the box mode never exceeds native dimensions. -/
theorem c3_box_mode_upscales_counterexample :
    (boxImage.IntrinsicSize 200 200).1 = 200 ∧
    ¬((boxImage.IntrinsicSize 200 200).1 ≤ boxImage.ImageW) := by
  constructor
  · norm_num [ImageBlock.IntrinsicSize, boxImage, DefaultLabelPad]
  · norm_num [ImageBlock.IntrinsicSize, boxImage, DefaultLabelPad]

/-- C3 (amended): with a width-only constraint the scale is `min(1, cw/w)`
and neither the reported width nor the image portion of the height exceeds
the native dimensions; with both constraints non-zero the scale is
`min(cw/w, ch/h)` with no clamp at 1, so the native bounds hold whenever at
least one constraint is within the native size (`cw ≤ w` or `ch ≤ h`) but
both-above-native constraints upscale; the height-only mode scales by `ch/h`
and may upscale. -/
theorem c3_image_intrinsic_size_bounds (i : ImageBlock) (cw ch : ℚ)
    (hw : 0 < i.ImageW) (hh : 0 < i.ImageH) :
    (cw ≠ 0 →
      i.IntrinsicSize cw 0 =
        (i.ImageW * min 1 (cw / i.ImageW),
         i.ImageH * min 1 (cw / i.ImageW)
           + i.Label (i.ImageW * min 1 (cw / i.ImageW)) + DefaultLabelPad) ∧
      (i.IntrinsicSize cw 0).1 ≤ i.ImageW ∧
      i.ImageH * min 1 (cw / i.ImageW) ≤ i.ImageH) ∧
    (ch ≠ 0 →
      i.IntrinsicSize 0 ch =
        (i.ImageW * (ch / i.ImageH),
         ch + i.Label (i.ImageW * (ch / i.ImageH)) + DefaultLabelPad)) ∧
    (cw ≠ 0 → ch ≠ 0 →
      i.IntrinsicSize cw ch =
        (i.ImageW * min (cw / i.ImageW) (ch / i.ImageH),
         i.ImageH * min (cw / i.ImageW) (ch / i.ImageH)
           + i.Label (i.ImageW * min (cw / i.ImageW) (ch / i.ImageH))
           + DefaultLabelPad) ∧
      ((cw ≤ i.ImageW ∨ ch ≤ i.ImageH) →
        (i.IntrinsicSize cw ch).1 ≤ i.ImageW ∧
        i.ImageH * min (cw / i.ImageW) (ch / i.ImageH) ≤ i.ImageH)) := by
  refine ⟨fun hcw => ?_, fun hch => ?_, fun hcw hch => ?_⟩
  · have hw' : i.ImageW ≠ 0 := ne_of_gt hw
    by_cases hgt : cw > i.ImageW
    · have hmin : min 1 (cw / i.ImageW) = 1 := by
        rw [min_eq_left]
        rw [le_div_iff hw]
        linarith
      have heq : i.IntrinsicSize cw 0 =
          (i.ImageW, i.ImageH * 1 + i.Label i.ImageW + DefaultLabelPad) := by
        unfold ImageBlock.IntrinsicSize
        simp only [hcw, hgt]
        simp [hcw, hgt]
      refine ⟨?_, ?_, ?_⟩
      · rw [heq, hmin]; simp
      · rw [heq]
      · rw [hmin, mul_one]
    · push_neg at hgt
      have hmin : min 1 (cw / i.ImageW) = cw / i.ImageW := by
        rw [min_eq_right]
        rw [div_le_one hw]
        exact hgt
      have heq : i.IntrinsicSize cw 0 =
          (cw, i.ImageH * (cw / i.ImageW) + i.Label cw + DefaultLabelPad) := by
        unfold ImageBlock.IntrinsicSize
        simp only [hcw]
        simp [hcw, not_lt.mpr hgt, hgt]
      have hwmul : i.ImageW * (cw / i.ImageW) = cw := by
        field_simp
      refine ⟨?_, ?_, ?_⟩
      · rw [heq, hmin, hwmul]
      · rw [heq]; exact hgt
      · rw [hmin]
        calc i.ImageH * (cw / i.ImageW) ≤ i.ImageH * 1 := by
              apply mul_le_mul_of_nonneg_left _ (le_of_lt hh)
              rw [div_le_one hw]; exact hgt
          _ = i.ImageH := mul_one _
  · unfold ImageBlock.IntrinsicSize
    simp [hch]
  · have heq : i.IntrinsicSize cw ch =
        (i.ImageW * min (cw / i.ImageW) (ch / i.ImageH),
         i.ImageH * min (cw / i.ImageW) (ch / i.ImageH)
           + i.Label (i.ImageW * min (cw / i.ImageW) (ch / i.ImageH))
           + DefaultLabelPad) := by
      unfold ImageBlock.IntrinsicSize
      simp [hcw, hch]
    refine ⟨heq, fun hle => ?_⟩
    have hscale : min (cw / i.ImageW) (ch / i.ImageH) ≤ 1 := by
      rcases hle with hle | hle
      · exact le_trans (min_le_left _ _) ((div_le_one hw).mpr hle)
      · exact le_trans (min_le_right _ _) ((div_le_one hh).mpr hle)
    constructor
    · rw [heq]
      exact mul_le_of_le_one_right (le_of_lt hw) hscale
    · exact mul_le_of_le_one_right (le_of_lt hh) hscale

/-- C3, witness for `c3_image_intrinsic_size_bounds` at concrete inputs. -/
theorem c3_image_intrinsic_size_bounds_witness :
    (boxImage.IntrinsicSize 50 0).1 ≤ boxImage.ImageW ∧
    (boxImage.IntrinsicSize 240 80).1 ≤ boxImage.ImageW :=
  ⟨(((c3_image_intrinsic_size_bounds boxImage 50 0 (by norm_num [boxImage])
      (by norm_num [boxImage])).1 (by norm_num)).2).1,
   (((c3_image_intrinsic_size_bounds boxImage 240 80 (by norm_num [boxImage])
      (by norm_num [boxImage])).2.2 (by norm_num) (by norm_num)).2
      (Or.inr (by norm_num [boxImage]))).1⟩

/-- C5: the sizing pass (`Column.Height`, hence `canvasSize`) separates tiles
by the pane's `RowPad`, but `Pane.DrawShape` hard-codes
`rPad := DefaultMinPad` for the vertical advance.  At `RowPad = 24` a
one-column shape with two 10-high tiles is sized to height
`10 + 10 + 24 = 44`, while the drawing pass places the second tile at
`y = 10 + 12 = 22` instead of `10 + 24` — the drawn geometry drifts from the
sizing geometry, contrary to the claim (which matches the spec's intent). -/
theorem c5_draw_pad_mismatch :
    canvasSize c5Shape c5Pane.ColWidth c5Pane.ColPad c5Pane.RowPad = (720, 44) ∧
    c5Pane.DrawShape c5Shape = [(0, [0, 22])] ∧
    (22 : ℚ) = 10 + DefaultMinPad ∧
    (22 : ℚ) ≠ 10 + c5Pane.RowPad := by
  refine ⟨?_, ?_, by norm_num [DefaultMinPad], by norm_num [c5Pane]⟩
  · show canvasSize c5Shape 720 24 24 = (720, 44)
    norm_num [canvasSize, c5Shape, colHeights, Column.Height, sampleTile, TileProxy]
  · show c5Pane.DrawShape c5Shape = [(0, [0, 22])]
    norm_num [Pane.DrawShape, c5Shape, c5Pane, columnYs, sampleTile, TileProxy,
      DefaultMinPad, List.enum]

/-! ## Helper facts about column heights and greedy filling -/

theorem column_height_empty (c : Column) (colWidth rowPad : ℚ)
    (h : c.Objects = []) :
    c.Height colWidth rowPad = -rowPad := by
  unfold Column.Height
  rw [h]
  norm_num

theorem column_height_nonneg (c : Column) (colWidth rowPad : ℚ)
    (hrp : 0 ≤ rowPad)
    (hts : ∀ o ∈ c.Objects, 0 ≤ (o.intrinsic colWidth).Height)
    (hne : c.Objects ≠ []) :
    0 ≤ c.Height colWidth rowPad := by
  unfold Column.Height
  have hsum : 0 ≤ (c.Objects.map (fun o => (o.intrinsic colWidth).Height)).sum := by
    apply List.sum_nonneg
    intro x hx
    obtain ⟨o, ho, rfl⟩ := List.mem_map.mp hx
    exact hts o ho
  have hlen : 1 ≤ c.Objects.length := by
    cases h : c.Objects with
    | nil => exact absurd h hne
    | cons a l => simp
  have hpad : (0:ℚ) ≤ rowPad * (((c.Objects.length : ℤ) - 1 : ℤ) : ℚ) := by
    apply mul_nonneg hrp
    push_cast
    have h1 : (1:ℚ) ≤ (c.Objects.length : ℚ) := by exact_mod_cast hlen
    linarith
  linarith

/-- While the shape still has an empty column, the scan selects an empty
column: empty columns have height `-rowPad < 0`, strictly below every
non-empty column's (non-negative) height. -/
theorem minHeightCol_selects_empty (s : Imacon.Shape) (colWidth rowPad : ℚ)
    (hrp : 0 < rowPad)
    (hgood : ∀ c ∈ s.Columns, ∀ o ∈ c.Objects, 0 ≤ (o.intrinsic colWidth).Height)
    (e : Nat) (he : e < s.Columns.length)
    (hempty : (s.Columns.getD e ⟨[]⟩).Objects = []) :
    (s.Columns.getD (minHeightCol (colHeights s colWidth rowPad)) ⟨[]⟩).Objects = [] := by
  have hlen : (colHeights s colWidth rowPad).length = s.Columns.length :=
    List.length_map _ _
  have hne : colHeights s colWidth rowPad ≠ [] := by
    intro h
    rw [List.map_eq_nil.mp h] at he
    simp at he
  have hgetD : ∀ j, j < s.Columns.length →
      (colHeights s colWidth rowPad).getD j 0 =
        (s.Columns.getD j ⟨[]⟩).Height colWidth rowPad := by
    intro j hj
    rw [List.getD_eq_getElem _ 0 (by omega), List.getD_eq_getElem _ _ hj]
    simp [colHeights]
  obtain ⟨h1, h2, _⟩ := minHeightCol_first_argmin _ hne
  set i := minHeightCol (colHeights s colWidth rowPad) with hi
  by_contra hcne
  have hmem : s.Columns.getD i ⟨[]⟩ ∈ s.Columns := by
    rw [List.getD_eq_getElem _ _ (by omega : i < s.Columns.length)]
    exact List.getElem_mem _
  have hnn : 0 ≤ (s.Columns.getD i ⟨[]⟩).Height colWidth rowPad :=
    column_height_nonneg _ _ _ (le_of_lt hrp)
      (fun o ho => hgood _ hmem o ho) hcne
  have hle := h2 e (by omega)
  rw [hgetD e he, hgetD i (by omega)] at hle
  rw [column_height_empty _ _ _ hempty] at hle
  linarith

theorem pushTile_countP_empty (cs : List Column) (i : Nat) (t : Tile)
    (hi : i < cs.length) (hempty : (cs.getD i ⟨[]⟩).Objects = []) :
    List.countP (fun c => c.Objects.isEmpty) (pushTile cs i t) + 1 =
      List.countP (fun c => c.Objects.isEmpty) cs := by
  induction cs generalizing i with
  | nil => simp at hi
  | cons c cs ih =>
    cases i with
    | zero =>
      have hc : c.Objects = [] := by simpa using hempty
      simp [pushTile, List.countP_cons, hc]
    | succ i =>
      have hi' : i < cs.length := by simpa using hi
      have hemp' : (cs.getD i ⟨[]⟩).Objects = [] := by simpa using hempty
      have hrec := ih i hi' hemp'
      simp only [pushTile, List.countP_cons]
      cases c.Objects.isEmpty <;> simp <;> omega

theorem pushTile_countP_le (cs : List Column) (i : Nat) (t : Tile) :
    List.countP (fun c => c.Objects.isEmpty) (pushTile cs i t) ≤
      List.countP (fun c => c.Objects.isEmpty) cs := by
  induction cs generalizing i with
  | nil => simp [pushTile]
  | cons c cs ih =>
    cases i with
    | zero =>
      have h1 : (c.Objects ++ [t]).isEmpty = false := by
        cases c.Objects <;> simp
      simp [pushTile, List.countP_cons, h1]
    | succ i =>
      have hrec := ih i
      simp only [pushTile, List.countP_cons]
      omega

/-- Every column of `pushTile cs i t` is either a column of `cs` or a column
of `cs` with `t` appended. -/
theorem mem_pushTile (cs : List Column) (i : Nat) (t : Tile) (c : Column)
    (hc : c ∈ pushTile cs i t) :
    c ∈ cs ∨ ∃ c0, c0 ∈ cs ∧ c = ⟨c0.Objects ++ [t]⟩ := by
  induction cs generalizing i with
  | nil => simp [pushTile] at hc
  | cons a as ih =>
    cases i with
    | zero =>
      rcases List.mem_cons.mp hc with h | h
      · exact Or.inr ⟨a, by simp, h⟩
      · exact Or.inl (List.mem_cons_of_mem _ h)
    | succ i =>
      rcases List.mem_cons.mp hc with h | h
      · exact Or.inl (by simp [h])
      · rcases ih i h with h1 | ⟨c0, hc0, he⟩
        · exact Or.inl (List.mem_cons_of_mem _ h1)
        · exact Or.inr ⟨c0, List.mem_cons_of_mem _ hc0, he⟩

theorem pushTile_good (cs : List Column) (i : Nat) (t : Tile) (colWidth : ℚ)
    (hgood : ∀ c ∈ cs, ∀ o ∈ c.Objects, 0 ≤ (o.intrinsic colWidth).Height)
    (ht : 0 ≤ (t.intrinsic colWidth).Height) :
    ∀ c ∈ pushTile cs i t, ∀ o ∈ c.Objects, 0 ≤ (o.intrinsic colWidth).Height := by
  intro c hc o ho
  rcases mem_pushTile cs i t c hc with h | ⟨c0, hc0, he⟩
  · exact hgood c h o ho
  · subst he
    rcases List.mem_append.mp ho with h1 | h1
    · exact hgood c0 hc0 o h1
    · rw [List.mem_singleton.mp h1]
      exact ht

theorem deriveShape_length (tiles : List Tile) :
    ∀ (s : Imacon.Shape) (colWidth rowPad : ℚ),
    (deriveShape s tiles colWidth rowPad).Columns.length = s.Columns.length := by
  induction tiles with
  | nil => intro s cw rp; rfl
  | cons t ts ih =>
    intro s cw rp
    have hstep : deriveShape s (t :: ts) cw rp =
        deriveShape (placeTile s t cw rp) ts cw rp := rfl
    rw [hstep, ih]
    exact pushTile_length _ _ _

/-- Greedy filling: placing `tiles` (of non-negative heights, with a positive
row pad) reduces the number of empty columns by one per tile while any
remain, and preserves the non-negative-heights invariant. -/
theorem deriveShape_fills_empties (tiles : List Tile) :
    ∀ (s : Imacon.Shape) (colWidth rowPad : ℚ), 0 < rowPad →
    (∀ c ∈ s.Columns, ∀ o ∈ c.Objects, 0 ≤ (o.intrinsic colWidth).Height) →
    (∀ t ∈ tiles, 0 ≤ (t.intrinsic colWidth).Height) →
    List.countP (fun c => c.Objects.isEmpty)
        (deriveShape s tiles colWidth rowPad).Columns ≤
      List.countP (fun c => c.Objects.isEmpty) s.Columns - tiles.length ∧
    (∀ c ∈ (deriveShape s tiles colWidth rowPad).Columns, ∀ o ∈ c.Objects,
      0 ≤ (o.intrinsic colWidth).Height) := by
  induction tiles with
  | nil =>
    intro s cw rp hrp hgood hts
    exact ⟨by simp [deriveShape], hgood⟩
  | cons t ts ih =>
    intro s cw rp hrp hgood hts
    have hstep : deriveShape s (t :: ts) cw rp =
        deriveShape (placeTile s t cw rp) ts cw rp := rfl
    have hPC : (placeTile s t cw rp).Columns =
        pushTile s.Columns (minHeightCol (colHeights s cw rp)) t := rfl
    have hgood' : ∀ c ∈ (placeTile s t cw rp).Columns, ∀ o ∈ c.Objects,
        0 ≤ (o.intrinsic cw).Height := by
      rw [hPC]
      exact pushTile_good s.Columns _ t cw hgood (hts t (by simp))
    have hih := ih (placeTile s t cw rp) cw rp hrp hgood'
      (fun x hx => hts x (List.mem_cons_of_mem _ hx))
    rw [hstep]
    refine ⟨?_, hih.2⟩
    have hih1 := hih.1
    by_cases hemp : ∃ e, e < s.Columns.length ∧ (s.Columns.getD e ⟨[]⟩).Objects = []
    · obtain ⟨e, he, hempty⟩ := hemp
      have hsne : s.Columns ≠ [] := by
        intro h
        rw [h] at he
        simp at he
      have hone : colHeights s cw rp ≠ [] := by
        intro h
        exact hsne (List.map_eq_nil.mp h)
      have hilt : minHeightCol (colHeights s cw rp) < s.Columns.length := by
        have := (minHeightCol_first_argmin _ hone).1
        have hl : (colHeights s cw rp).length = s.Columns.length := List.length_map _ _
        omega
      have hsel := minHeightCol_selects_empty s cw rp hrp hgood e he hempty
      have hcnt := pushTile_countP_empty s.Columns (minHeightCol (colHeights s cw rp)) t
        hilt hsel
      rw [hPC] at hih1
      simp only [List.length_cons]
      omega
    · have hzero : List.countP (fun c => c.Objects.isEmpty) s.Columns = 0 := by
        rw [List.countP_eq_zero]
        intro c hc
        simp only [List.isEmpty_eq_true]
        intro hcempty
        apply hemp
        obtain ⟨e, he, hce⟩ := List.mem_iff_getElem.mp hc
        refine ⟨e, he, ?_⟩
        rw [List.getD_eq_getElem _ _ he, hce]
        exact hcempty
      have hle := pushTile_countP_le s.Columns (minHeightCol (colHeights s cw rp)) t
      rw [hPC] at hih1
      simp only [List.length_cons]
      omega

theorem countP_isEmpty_replicate (n : Nat) :
    List.countP (fun c => c.Objects.isEmpty) (List.replicate n (⟨[]⟩ : Column)) = n := by
  induction n with
  | zero => rfl
  | succ n ih => simp [List.replicate_succ, List.countP_cons, ih]

/-- C1: for a pane with a non-empty tile list (with positive column width and
tile heights and non-negative pads — the domain in which the `ℚ` model and
the float code agree: every candidate has positive width and height and a
finite positive score), `Pane.Shape` returns the candidate whose score
`area * aspect` is minimal over all column counts `1 .. N`: its score is `≤`
every candidate's score, and among candidates attaining the minimal score the
one with the lowest column count is returned (the strict `<` update keeps the
first best). -/
theorem c1_shape_search_minimizes_score (p : Pane)
    (hne : p.Objects ≠ [])
    (hcw : 0 < p.ColWidth) (hcp : 0 ≤ p.ColPad) (hrp : 0 ≤ p.RowPad)
    (hhts : ∀ o ∈ p.Objects, 0 < (o.intrinsic p.ColWidth).Height) :
    ∃ c, 1 ≤ c ∧ c ≤ p.Objects.length ∧
      Pane.Shape p = some (candidateShape p.mkProxies p.ColWidth p.RowPad c,
        ⟨(candSize p.mkProxies p.ColWidth p.ColPad p.RowPad c).1,
         (candSize p.mkProxies p.ColWidth p.ColPad p.RowPad c).2⟩) ∧
      (∀ x, 1 ≤ x → x ≤ p.Objects.length →
        candScore p.mkProxies p.ColWidth p.ColPad p.RowPad c ≤
          candScore p.mkProxies p.ColWidth p.ColPad p.RowPad x) ∧
      (∀ x, 1 ≤ x → x ≤ p.Objects.length →
        candScore p.mkProxies p.ColWidth p.ColPad p.RowPad x =
          candScore p.mkProxies p.ColWidth p.ColPad p.RowPad c → c ≤ x) := by
  have hlen : p.mkProxies.length = p.Objects.length := List.length_map _ _
  have hne' : p.mkProxies ≠ [] := fun h => hne (List.map_eq_nil.mp h)
  obtain ⟨d, hfold, hd1, hdN, hdmin, hdtie⟩ :=
    shapeSearch_spec p.mkProxies p.ColWidth p.ColPad p.RowPad hne'
  refine ⟨d, hd1, by omega, ?_, fun x h1 h2 => hdmin x h1 (by omega),
    fun x h1 h2 => hdtie x h1 (by omega)⟩
  unfold Pane.Shape
  rw [hfold]
  rfl

/-- C1, witness for `c1_shape_search_minimizes_score` at a concrete
two-tile pane. -/
theorem c1_shape_search_minimizes_score_witness :
    c1Pane.Objects ≠ [] ∧ (0:ℚ) < c1Pane.ColWidth ∧
    ∃ c, 1 ≤ c ∧ c ≤ c1Pane.Objects.length ∧
      Pane.Shape c1Pane = some (candidateShape c1Pane.mkProxies c1Pane.ColWidth c1Pane.RowPad c,
        ⟨(candSize c1Pane.mkProxies c1Pane.ColWidth c1Pane.ColPad c1Pane.RowPad c).1,
         (candSize c1Pane.mkProxies c1Pane.ColWidth c1Pane.ColPad c1Pane.RowPad c).2⟩) ∧
      (∀ x, 1 ≤ x → x ≤ c1Pane.Objects.length →
        candScore c1Pane.mkProxies c1Pane.ColWidth c1Pane.ColPad c1Pane.RowPad c ≤
          candScore c1Pane.mkProxies c1Pane.ColWidth c1Pane.ColPad c1Pane.RowPad x) ∧
      (∀ x, 1 ≤ x → x ≤ c1Pane.Objects.length →
        candScore c1Pane.mkProxies c1Pane.ColWidth c1Pane.ColPad c1Pane.RowPad x =
          candScore c1Pane.mkProxies c1Pane.ColWidth c1Pane.ColPad c1Pane.RowPad c → c ≤ x) :=
  ⟨by simp [c1Pane, NewPane], by norm_num [c1Pane, NewPane],
   c1_shape_search_minimizes_score c1Pane
     (by simp [c1Pane, NewPane])
     (by norm_num [c1Pane, NewPane])
     (by norm_num [c1Pane, NewPane])
     (by norm_num [c1Pane, NewPane])
     (by
       intro o ho
       simp only [c1Pane, NewPane, List.mem_cons, List.not_mem_nil, or_false] at ho
       rcases ho with h | h <;>
         · subst h
           norm_num [sampleTile, TileProxy])⟩

/-- C9: for a non-empty tile list of size N (positive column width and tile
heights, non-negative column pad, positive row pad — the engine's
constructors guarantee the pads and width, and the positivity keeps every
candidate's float score finite, as in C1), the shape returned by the search
has at most N columns and every one of its columns received at least one
tile. -/
theorem c9_shape_columns_nonempty (p : Pane)
    (hne : p.Objects ≠ [])
    (hcw : 0 < p.ColWidth) (hcp : 0 ≤ p.ColPad) (hrp : 0 < p.RowPad)
    (hhts : ∀ o ∈ p.Objects, 0 < (o.intrinsic p.ColWidth).Height) :
    ∃ s sz, Pane.Shape p = some (s, sz) ∧
      s.Columns.length ≤ p.Objects.length ∧
      ∀ c ∈ s.Columns, c.Objects ≠ [] := by
  have hlen : p.mkProxies.length = p.Objects.length := List.length_map _ _
  have hne' : p.mkProxies ≠ [] := fun h => hne (List.map_eq_nil.mp h)
  obtain ⟨d, hfold, hd1, hdN, _, _⟩ :=
    shapeSearch_spec p.mkProxies p.ColWidth p.ColPad p.RowPad hne'
  have hclen : (candidateShape p.mkProxies p.ColWidth p.RowPad d).Columns.length = d := by
    unfold candidateShape
    rw [deriveShape_length]
    simp [NewShape]
  have hprox : ∀ t ∈ p.mkProxies, 0 ≤ (t.intrinsic p.ColWidth).Height := by
    intro t ht
    obtain ⟨o, ho, rfl⟩ := List.mem_map.mp ht
    exact le_of_lt (by simpa [TileProxy] using hhts o ho)
  have hfill := deriveShape_fills_empties p.mkProxies (NewShape d) p.ColWidth p.RowPad hrp
    (by
      intro c hc o ho
      have hc' : c = ⟨[]⟩ := List.eq_of_mem_replicate hc
      rw [hc'] at ho
      simp at ho)
    hprox
  have hrepl : List.countP (fun c => c.Objects.isEmpty) (NewShape d).Columns = d :=
    countP_isEmpty_replicate d
  have hcount0 : List.countP (fun c => c.Objects.isEmpty)
      (candidateShape p.mkProxies p.ColWidth p.RowPad d).Columns = 0 := by
    have h1 := hfill.1
    unfold candidateShape
    omega
  refine ⟨candidateShape p.mkProxies p.ColWidth p.RowPad d,
    ⟨(candSize p.mkProxies p.ColWidth p.ColPad p.RowPad d).1,
     (candSize p.mkProxies p.ColWidth p.ColPad p.RowPad d).2⟩, ?_, by omega, ?_⟩
  · unfold Pane.Shape
    rw [hfold]
    rfl
  · intro c hc
    have h := List.countP_eq_zero.mp hcount0 c hc
    simpa using h

/-- C9, witness for `c9_shape_columns_nonempty` at a concrete two-tile
pane. -/
theorem c9_shape_columns_nonempty_witness :
    c1Pane.Objects ≠ [] ∧ (0:ℚ) < c1Pane.ColWidth ∧ (0:ℚ) < c1Pane.RowPad ∧
    ∃ s sz, Pane.Shape c1Pane = some (s, sz) ∧
      s.Columns.length ≤ c1Pane.Objects.length ∧
      ∀ c ∈ s.Columns, c.Objects ≠ [] :=
  ⟨by simp [c1Pane, NewPane], by norm_num [c1Pane, NewPane],
   by norm_num [c1Pane, NewPane],
   c9_shape_columns_nonempty c1Pane
     (by simp [c1Pane, NewPane])
     (by norm_num [c1Pane, NewPane])
     (by norm_num [c1Pane, NewPane])
     (by norm_num [c1Pane, NewPane])
     (by
       intro o ho
       simp only [c1Pane, NewPane, List.mem_cons, List.not_mem_nil, or_false] at ho
       rcases ho with h | h <;>
         · subst h
           norm_num [sampleTile, TileProxy])⟩

/-- C7: a memoized shape is never replaced — with `PlannedShape = some s`,
both `IntrinsicSize` and `Draw` compute from the stored `s` and return the
pane unchanged (no search is rerun); and starting from `PlannedShape = none`
with a non-empty tile list (positive column width and tile heights,
non-negative pads — the domain in which every candidate's float score is
finite, as in C1, so the search does produce a best shape), the first
`IntrinsicSize` call memoizes the shape it found, after which every later
`IntrinsicSize` call (with any constraints) returns the same
`(width, height)` and leaves the state unchanged, and `Draw` draws the
memoized shape. -/
theorem c7_memoized_shape_stable (p : Pane) (ew eh ew2 eh2 : ℚ) :
    (∀ s, p.PlannedShape = some s →
      p.IntrinsicSize ew eh =
        some (canvasSize s p.ColWidth p.ColPad p.RowPad, p) ∧
      p.Draw ew eh = some (p.DrawShape s, p)) ∧
    (p.PlannedShape = none → p.Objects ≠ [] →
      0 < p.ColWidth → 0 ≤ p.ColPad → 0 ≤ p.RowPad →
      (∀ o ∈ p.Objects, 0 < (o.intrinsic p.ColWidth).Height) →
      ∃ s wh p1,
        p.IntrinsicSize ew eh = some (wh, p1) ∧
        p1.PlannedShape = some s ∧
        p1.IntrinsicSize ew2 eh2 = some (wh, p1) ∧
        p1.Draw ew2 eh2 = some (p1.DrawShape s, p1)) := by
  constructor
  · intro s hs
    constructor
    · unfold Pane.IntrinsicSize
      rw [hs]
    · unfold Pane.Draw
      rw [hs]
  · intro hnone hne hcw hcp hrp hhts
    have hne' : p.mkProxies ≠ [] := fun h => hne (List.map_eq_nil.mp h)
    obtain ⟨d, hfold, _, _, _, _⟩ :=
      shapeSearch_spec p.mkProxies p.ColWidth p.ColPad p.RowPad hne'
    have hshape : p.Shape =
        some (candidateShape p.mkProxies p.ColWidth p.RowPad d,
          ⟨(candSize p.mkProxies p.ColWidth p.ColPad p.RowPad d).1,
           (candSize p.mkProxies p.ColWidth p.ColPad p.RowPad d).2⟩) := by
      unfold Pane.Shape
      rw [hfold]
      rfl
    refine ⟨candidateShape p.mkProxies p.ColWidth p.RowPad d,
      ((candSize p.mkProxies p.ColWidth p.ColPad p.RowPad d).1,
       (candSize p.mkProxies p.ColWidth p.ColPad p.RowPad d).2),
      ⟨p.Objects, some (candidateShape p.mkProxies p.ColWidth p.RowPad d),
       p.ColWidth, p.ColPad, p.RowPad⟩,
      ?_, rfl, ?_, rfl⟩
    · unfold Pane.IntrinsicSize
      rw [hnone, hshape]
    · unfold Pane.IntrinsicSize
      simp only []
      rw [canvasSize_candidate]

/-- C7, witness for `c7_memoized_shape_stable`: the memoized branch at a
pane with a stored shape, and the memoize-then-reuse branch at a fresh
pane. -/
theorem c7_memoized_shape_stable_witness :
    (c5Pane.IntrinsicSize 0 0 =
      some (canvasSize c5Shape c5Pane.ColWidth c5Pane.ColPad c5Pane.RowPad, c5Pane)) ∧
    c7Pane.Objects ≠ [] ∧ (0:ℚ) < c7Pane.ColWidth ∧
    (∃ s wh p1,
      c7Pane.IntrinsicSize 0 0 = some (wh, p1) ∧
      p1.PlannedShape = some s ∧
      p1.IntrinsicSize 5 7 = some (wh, p1) ∧
      p1.Draw 5 7 = some (p1.DrawShape s, p1)) :=
  ⟨((c7_memoized_shape_stable c5Pane 0 0 5 7).1 c5Shape rfl).1,
   by simp [c7Pane, NewPane], by norm_num [c7Pane, NewPane],
   (c7_memoized_shape_stable c7Pane 0 0 5 7).2 rfl
     (by simp [c7Pane, NewPane])
     (by norm_num [c7Pane, NewPane])
     (by norm_num [c7Pane, NewPane])
     (by norm_num [c7Pane, NewPane])
     (by
       intro o ho
       simp only [c7Pane, NewPane, List.mem_cons, List.not_mem_nil, or_false] at ho
       subst ho
       norm_num [sampleTile, TileProxy])⟩

end Imacon
